import Mathlib

/-!
Verification of the chunked transcription pipeline in `murmure.py`.

The embedding models the source faithfully:
- an audio stream is represented by its pydub duration in milliseconds
  (`len(audio)`); a chunk `audio[i : i + L]` is the half-open interval
  `(i, min (i + L) duration)`;
- file names are lists of characters; `os.path.splitext` (on a base name)
  and `str.endswith` are translated from CPython's semantics;
- the filesystem, the transcoder and the remote backends are external
  collaborators, modelled as a record of functions (`World`) snapshotting
  one run;
- `transcribe` is instrumented with a call counter so that "exactly one
  backend request per invocation" is provable.
-/

/-- Python `range(start, stop, step)` for a positive `step`: the element
count is CPython's `(stop - start + step - 1) // step` (natural
subtraction truncates at zero exactly like the CPython guard). -/
def pyRange (start stop step : Nat) : List Nat :=
  (List.range ((stop - start + step - 1) / step)).map (fun k => start + k * step)

/-- `split_audio` (murmure.py lines 77-82): `for i in range(0, len(audio),
chunk_length_ms): chunks.append(audio[i : i + chunk_length_ms])`.  A chunk
is modelled by its half-open interval `[start, stop)` in milliseconds; the
pydub slice `audio[i : i + L]` covers `[i, min (i + L) D)`. -/
def split_audio (duration chunkLen : Nat) : List (Nat × Nat) :=
  (pyRange 0 duration chunkLen).map (fun i => (i, min (i + chunkLen) duration))

theorem split_audio_eq (D L : Nat) :
    split_audio D L =
      (List.range ((D + L - 1) / L)).map (fun k => (k * L, min (k * L + L) D)) := by
  simp [split_audio, pyRange, List.map_map, Function.comp_def]

theorem lt_chunkCount_iff (D L k : Nat) (hL : 0 < L) :
    k < (D + L - 1) / L ↔ k * L < D := by
  have h1 : k < (D + L - 1) / L ↔ k + 1 ≤ (D + L - 1) / L := Iff.rfl
  rw [h1, Nat.le_div_iff_mul_le hL]
  have h2 : (k + 1) * L = k * L + L := by ring
  omega

theorem split_audio_length (D L : Nat) :
    (split_audio D L).length = (D + L - 1) / L := by
  simp [split_audio_eq]

theorem split_audio_zero (L : Nat) (hL : 0 < L) : split_audio 0 L = [] := by
  rw [split_audio_eq]
  have : (L - 1) / L = 0 := Nat.div_eq_of_lt (by omega)
  simp [this]

theorem split_audio_mem (D L : Nat) (hL : 0 < L) (c : Nat × Nat)
    (hc : c ∈ split_audio D L) :
    ∃ k, k * L < D ∧ c = (k * L, min (k * L + L) D) := by
  rw [split_audio_eq] at hc
  obtain ⟨k, hk, rfl⟩ := List.mem_map.mp hc
  exact ⟨k, (lt_chunkCount_iff D L k hL).mp (List.mem_range.mp hk), rfl⟩

theorem split_audio_mem_of_lt (D L k : Nat) (hL : 0 < L) (hk : k * L < D) :
    (k * L, min (k * L + L) D) ∈ split_audio D L := by
  rw [split_audio_eq]
  exact List.mem_map.mpr ⟨k, List.mem_range.mpr ((lt_chunkCount_iff D L k hL).mpr hk), rfl⟩

theorem split_audio_starts_increasing (D L : Nat) (hL : 0 < L) :
    List.Pairwise (fun a b : Nat × Nat => a.1 < b.1) (split_audio D L) := by
  rw [split_audio_eq, List.pairwise_map]
  exact (List.pairwise_lt_range _).imp (fun h => (Nat.mul_lt_mul_right hL).mpr h)

theorem split_audio_no_overlap (D L : Nat) (_hL : 0 < L) :
    List.Pairwise (fun a b : Nat × Nat => a.2 ≤ b.1) (split_audio D L) := by
  rw [split_audio_eq, List.pairwise_map]
  refine List.Pairwise.imp ?_ (List.pairwise_lt_range _)
  intro i j hij
  refine Nat.le_trans (Nat.min_le_left _ _) ?_
  have h1 : (i + 1) * L ≤ j * L := Nat.mul_le_mul_right L hij
  have h2 : (i + 1) * L = i * L + L := by ring
  omega

theorem split_audio_bounds (D L : Nat) (hL : 0 < L) (c : Nat × Nat)
    (hc : c ∈ split_audio D L) :
    c.1 < c.2 ∧ c.2 ≤ D ∧ c.2 = min (c.1 + L) D := by
  obtain ⟨k, hkD, rfl⟩ := split_audio_mem D L hL c hc
  refine ⟨lt_min (by omega) hkD, Nat.min_le_right _ _, rfl⟩

theorem split_audio_covers (D L t : Nat) (hL : 0 < L) (ht : t < D) :
    ∃! c : Nat × Nat, c ∈ split_audio D L ∧ c.1 ≤ t ∧ t < c.2 := by
  have hmod := Nat.div_add_mod t L
  have hmlt : t % L < L := Nat.mod_lt t hL
  have hcomm : L * (t / L) = t / L * L := Nat.mul_comm _ _
  refine ⟨(t / L * L, min (t / L * L + L) D), ⟨?_, ?_, ?_⟩, ?_⟩
  · exact split_audio_mem_of_lt D L (t / L) hL
      (Nat.lt_of_le_of_lt (Nat.div_mul_le_self t L) ht)
  · exact Nat.div_mul_le_self t L
  · exact lt_min (by omega) ht
  · rintro c ⟨hc, hle, hlt⟩
    obtain ⟨k, hkD, rfl⟩ := split_audio_mem D L hL c hc
    have hk : k = t / L := by
      have h1 : k ≤ t / L := (Nat.le_div_iff_mul_le hL).mpr hle
      have h2 : t < k * L + L := lt_of_lt_of_le hlt (Nat.min_le_left _ _)
      have h3 : t / L < k + 1 := by
        rw [Nat.div_lt_iff_lt_mul hL]
        have : (k + 1) * L = k * L + L := by ring
        omega
      omega
    subst hk
    rfl

/-- Claim C1: for duration `D ≥ 0` and chunk length `L > 0`, `split_audio`
produces exactly `ceil(D / L) = (D + L - 1) / L` chunks, in strictly
increasing start order, non-overlapping, each a nonempty sub-interval of
`[0, D)` of nominal length `L` truncated at `D` (so the final chunk keeps
only the remaining duration), jointly covering every instant `t < D`
exactly once; for `D = 0` the chunk list is empty. -/
theorem split_audio_chunking_spec (D L : Nat) (hL : 0 < L) :
    (split_audio D L).length = (D + L - 1) / L ∧
    (D = 0 → split_audio D L = []) ∧
    List.Pairwise (fun a b : Nat × Nat => a.1 < b.1) (split_audio D L) ∧
    List.Pairwise (fun a b : Nat × Nat => a.2 ≤ b.1) (split_audio D L) ∧
    (∀ c ∈ split_audio D L, c.1 < c.2 ∧ c.2 ≤ D ∧ c.2 = min (c.1 + L) D) ∧
    (∀ t, t < D → ∃! c : Nat × Nat, c ∈ split_audio D L ∧ c.1 ≤ t ∧ t < c.2) := by
  refine ⟨split_audio_length D L, ?_, split_audio_starts_increasing D L hL,
    split_audio_no_overlap D L hL, fun c hc => split_audio_bounds D L hL c hc,
    fun t ht => split_audio_covers D L t hL ht⟩
  rintro rfl
  exact split_audio_zero L hL

/-- Witness for C1 at `D = 25`, `L = 10` (the spec's own determinism
example scaled down): three chunks `[0,10), [10,20), [20,25)`. -/
theorem split_audio_chunking_spec_witness :
    0 < 10 ∧ split_audio 25 10 = [(0, 10), (10, 20), (20, 25)] ∧
    ((split_audio 25 10).length = (25 + 10 - 1) / 10 ∧
     (25 = 0 → split_audio 25 10 = []) ∧
     List.Pairwise (fun a b : Nat × Nat => a.1 < b.1) (split_audio 25 10) ∧
     List.Pairwise (fun a b : Nat × Nat => a.2 ≤ b.1) (split_audio 25 10) ∧
     (∀ c ∈ split_audio 25 10, c.1 < c.2 ∧ c.2 ≤ 25 ∧ c.2 = min (c.1 + 10) 25) ∧
     (∀ t, t < 25 → ∃! c : Nat × Nat, c ∈ split_audio 25 10 ∧ c.1 ≤ t ∧ t < c.2)) :=
  ⟨by decide, by decide, split_audio_chunking_spec 25 10 (by decide)⟩

/-- CPython `os.path.splitext` restricted to a base name (no directory
separator): split at the last dot, unless every character before that dot
is itself a dot (leading-dot files such as `.m4a` have no extension). -/
def splitextBase (cs : List Char) : List Char × List Char :=
  let tail := (cs.reverse.takeWhile (fun c => c != '.')).reverse
  if tail.length = cs.length then (cs, [])
  else
    let n := cs.length - tail.length - 1
    if (cs.take n).any (fun c => c != '.') then (cs.take n, cs.drop n)
    else (cs, [])

/-- `str.lower` on a base name, character by character (murmure.py line
120 applies `.lower()` to the `splitext` extension). -/
def lowerAll (cs : List Char) : List Char :=
  cs.map Char.toLower

/-- The input filter of `process_all_files` (murmure.py line 118):
`file_name.endswith((".m4a", ".mp3"))`. -/
def isAudioName (name : List Char) : Bool :=
  ".m4a".data.isSuffixOf name || ".mp3".data.isSuffixOf name

/-- A filesystem path, split as `os.path.join(dir, base)` builds it: the
directory part and the base name.  Directory-listing entries have no
separator, so every path the script manipulates has this shape. -/
structure FsPath where
  dir : List Char
  base : List Char
deriving DecidableEq

/-- The external collaborators of one run, snapshotted: which paths exist,
whether pydub can load/export a given file, each file's duration in
milliseconds, and the two remote backends (transcription text per chunk of
a file, GPT rewrite per prompt and text).  The functions are total: the
claims about backend failure are settled on the instrumented `transcribe`
model below. -/
structure World where
  mp3Exists : FsPath → Bool
  convertOk : FsPath → Bool
  duration : FsPath → Nat
  backendText : FsPath → Nat × Nat → String
  postText : String → String → String

/-- The per-run configuration: `input.source_path`,
`output.transcript_path` and `transcription.enabled` from `settings.yaml`,
the `--gpt_post_process` flag, `chunk_length_ms` and the system prompt. -/
structure Config where
  srcDir : List Char
  outDir : List Char
  enabled : Bool
  useGpt : Bool
  chunkLen : Nat
  prompt : String

/-- The `.mp3` sibling path built at murmure.py lines 53-57:
`join(dirname(p), splitext(basename(p))[0] + ".mp3")`. -/
def mp3SiblingPath (p : FsPath) : FsPath :=
  ⟨p.dir, (splitextBase p.base).1 ++ ".mp3".data⟩

/-- `convert_m4a_to_mp3` (murmure.py lines 50-73).  Returns the resulting
mp3 path (`none` models the `return None` taken when pydub raises) and a
flag recording whether the transcoder (load + export) was actually
invoked: the early `os.path.exists` return at lines 60-62 skips it. -/
def convert_m4a_to_mp3 (w : World) (p : FsPath) : Option FsPath × Bool :=
  let mp3 := mp3SiblingPath p
  if w.mp3Exists mp3 then (some mp3, false)
  else if w.convertOk p then (some mp3, true)
  else (none, true)

/-- Right-to-left concatenation of a list of strings, the shape in which
the accumulated transcript is compared with its segments. -/
def concatAll : List String → String
  | [] => ""
  | s :: rest => s ++ concatAll rest

/-- `process_audio` (murmure.py lines 155-163): split, then fold over the
chunks in order, appending each (optionally GPT-rewritten) transcript
segment plus `"\n"` to the accumulator string. -/
def process_audio (transcribeChunk : Nat × Nat → String) (postProc : String → String)
    (duration chunkLen : Nat) (useGpt : Bool) : String :=
  (split_audio duration chunkLen).foldl
    (fun acc c =>
      let t := transcribeChunk c
      let t2 := if useGpt then postProc t else t
      acc ++ t2 ++ "\n") ""

/-- What one directory entry produced: whether it passed the extension
filter, whether the container transcoder was invoked for it, and the
transcript write it performed (output path and exact content), if any. -/
structure EntryResult where
  matched : Bool
  transcodeInvoked : Bool
  write : Option (FsPath × String)
deriving DecidableEq

/-- The tail of the per-entry body (murmure.py lines 133-151): `if
transcription_enabled and mp3_file:` run `process_audio` on the mp3 and
write the transcript to `<out>/<stem>.txt`; otherwise write nothing. -/
def finishEntry (w : World) (cfg : Config) (name : List Char)
    (transcoded : Bool) (mp3 : Option FsPath) : EntryResult :=
  match cfg.enabled, mp3 with
  | true, some p =>
      ⟨true, transcoded,
        some (⟨cfg.outDir, (splitextBase name).1 ++ ".txt".data⟩,
          process_audio (w.backendText p) (w.postText cfg.prompt)
            (w.duration p) cfg.chunkLen cfg.useGpt)⟩
  | _, _ => ⟨true, transcoded, none⟩

/-- One iteration of the `process_all_files` loop (murmure.py lines
114-151) on entry `name`: the `endswith` filter, then the lower-cased
`splitext` extension dispatch (`.m4a` converts first, `.mp3` is used as
is, anything else hits the `continue`), then `finishEntry`. -/
def processEntry (w : World) (cfg : Config) (name : List Char) : EntryResult :=
  if isAudioName name then
    let filePath : FsPath := ⟨cfg.srcDir, name⟩
    let ext := lowerAll (splitextBase name).2
    if ext = ".m4a".data then
      let conv := convert_m4a_to_mp3 w filePath
      finishEntry w cfg name conv.2 conv.1
    else if ext = ".mp3".data then
      finishEntry w cfg name false (some filePath)
    else ⟨true, false, none⟩
  else ⟨false, false, none⟩

/-- `process_all_files` (murmure.py lines 113-151): iterate the loop body
over the directory listing in order. -/
def process_all_files (w : World) (cfg : Config) : List (List Char) → List EntryResult
  | [] => []
  | name :: rest => processEntry w cfg name :: process_all_files w cfg rest

/-- One element of the transcription backend's `choices` array. -/
structure Choice where
  text : String
deriving DecidableEq

/-- The two response shapes `transcribe` has to handle (murmure.py lines
93-97): a bare string, or a structured object carrying a `choices` list. -/
inductive WhisperResponse where
  | plain (s : String)
  | structured (choices : List Choice)
deriving DecidableEq

/-- What escapes one invocation of `transcribe`: normalized plain text, the
backend call's own exception propagating unchanged with its cause (there
is no try/except in `transcribe`, so this is the `TranscriptionError` the
caller observes), or the `IndexError` of `response.choices[0]` on an empty
`choices` list. -/
inductive TranscribeOutcome (ε : Type) where
  | text (s : String)
  | transcriptionError (cause : ε)
  | extractionError
deriving DecidableEq

/-- `transcribe` (murmure.py lines 86-97), instrumented with a call
counter: `backend n` is the outcome of the `n`-th request issued to
`client.audio.transcriptions.create`.  One invocation issues exactly one
request; a failing request propagates its exception; a successful one is
normalized (string returned as is, otherwise `response.choices[0].text`).
-/
def transcribe (backend : Nat → Except ε WhisperResponse) (calls : Nat) :
    TranscribeOutcome ε × Nat :=
  match backend calls with
  | .error e => (.transcriptionError e, calls + 1)
  | .ok (.plain s) => (.text s, calls + 1)
  | .ok (.structured []) => (.extractionError, calls + 1)
  | .ok (.structured (c :: _)) => (.text c.text, calls + 1)

theorem foldl_segments (seg : Nat × Nat → String) (l : List (Nat × Nat)) :
    ∀ acc : String,
      l.foldl (fun a c => a ++ seg c ++ "\n") acc =
        acc ++ concatAll (l.map (fun c => seg c ++ "\n")) := by
  induction l with
  | nil => intro acc; simp [concatAll]
  | cons c rest ih =>
      intro acc
      simp only [List.foldl_cons, List.map_cons, concatAll, ih]
      simp [String.append_assoc]

theorem process_audio_join (tf : Nat × Nat → String) (pf : String → String)
    (D L : Nat) (b : Bool) :
    process_audio tf pf D L b =
      concatAll ((split_audio D L).map
        (fun c => (if b then pf (tf c) else tf c) ++ "\n")) := by
  have h := foldl_segments (fun c => if b then pf (tf c) else tf c) (split_audio D L) ""
  simpa [process_audio, String.empty_append] using h

theorem finishEntry_matched (w : World) (cfg : Config) (name : List Char)
    (t : Bool) (mp3 : Option FsPath) :
    (finishEntry w cfg name t mp3).matched = true := by
  cases he : cfg.enabled <;> cases mp3 <;> simp [finishEntry, he]

theorem finishEntry_transcoded (w : World) (cfg : Config) (name : List Char)
    (t : Bool) (mp3 : Option FsPath) :
    (finishEntry w cfg name t mp3).transcodeInvoked = t := by
  cases he : cfg.enabled <;> cases mp3 <;> simp [finishEntry, he]

theorem finishEntry_disabled (w : World) (cfg : Config) (hdis : cfg.enabled = false)
    (name : List Char) (t : Bool) (mp3 : Option FsPath) :
    finishEntry w cfg name t mp3 = ⟨true, t, none⟩ := by
  cases mp3 <;> simp [finishEntry, hdis]

theorem finishEntry_write_inv (w : World) (cfg : Config) (name : List Char)
    (t : Bool) (mp3 : Option FsPath) (out : FsPath) (content : String)
    (h : (finishEntry w cfg name t mp3).write = some (out, content)) :
    ∃ p : FsPath, mp3 = some p ∧ cfg.enabled = true ∧
      out = ⟨cfg.outDir, (splitextBase name).1 ++ ".txt".data⟩ ∧
      content = process_audio (w.backendText p) (w.postText cfg.prompt)
        (w.duration p) cfg.chunkLen cfg.useGpt := by
  cases he : cfg.enabled <;> cases mp3 <;> simp [finishEntry, he] at h
  case true.some p =>
    exact ⟨p, rfl, rfl, h.1.symm, h.2.symm⟩

theorem process_all_files_mem (w : World) (cfg : Config)
    (listing : List (List Char)) (r : EntryResult)
    (h : r ∈ process_all_files w cfg listing) :
    ∃ nm ∈ listing, r = processEntry w cfg nm := by
  induction listing with
  | nil => simp [process_all_files] at h
  | cons n rest ih =>
      simp only [process_all_files, List.mem_cons] at h
      rcases h with rfl | h
      · exact ⟨n, by simp, rfl⟩
      · obtain ⟨nm, hnm, rfl⟩ := ih h
        exact ⟨nm, by simp [hnm], rfl⟩

theorem process_all_files_append (w : World) (cfg : Config)
    (l1 l2 : List (List Char)) :
    process_all_files w cfg (l1 ++ l2) =
      process_all_files w cfg l1 ++ process_all_files w cfg l2 := by
  induction l1 with
  | nil => rfl
  | cons n rest ih => simp [process_all_files, ih]

theorem processEntry_write_content (w : World) (cfg : Config) (name : List Char)
    (out : FsPath) (content : String)
    (h : (processEntry w cfg name).write = some (out, content)) :
    ∃ p : FsPath, content = process_audio (w.backendText p) (w.postText cfg.prompt)
      (w.duration p) cfg.chunkLen cfg.useGpt := by
  by_cases h1 : isAudioName name = true
  · by_cases h2 : lowerAll (splitextBase name).2 = ".m4a".data
    · rcases hcv : convert_m4a_to_mp3 w ⟨cfg.srcDir, name⟩ with ⟨mp3, flag⟩
      simp only [processEntry, h1, h2, hcv, if_true, if_pos] at h
      obtain ⟨p, _, _, _, hct⟩ := finishEntry_write_inv w cfg name flag mp3 out content h
      exact ⟨p, hct⟩
    · by_cases h3 : lowerAll (splitextBase name).2 = ".mp3".data
      · simp only [processEntry, h1, h2, h3, if_true, if_false, if_pos, if_neg,
          not_false_iff] at h
        obtain ⟨p, _, _, _, hct⟩ :=
          finishEntry_write_inv w cfg name false (some ⟨cfg.srcDir, name⟩) out content h
        exact ⟨p, hct⟩
      · simp [processEntry, h1, h2, h3] at h
  · simp [processEntry, h1] at h

/-- Claim C2: the transcript produced by `process_audio` (and persisted
verbatim by `process_all_files`, which writes `full_transcript` with a
single `file.write`) is the concatenation, in chunk order, of each
segment's (optionally refined) text followed by exactly one line break,
so concatenating the segments in order with line breaks reproduces the
persisted content exactly. -/
theorem transcript_round_trip (w : World) (cfg : Config) :
    (∀ (tf : Nat × Nat → String) (pf : String → String) (D L : Nat) (b : Bool),
      process_audio tf pf D L b =
        concatAll ((split_audio D L).map
          (fun c => (if b then pf (tf c) else tf c) ++ "\n"))) ∧
    (∀ (listing : List (List Char)) (r : EntryResult) (out : FsPath) (content : String),
      r ∈ process_all_files w cfg listing → r.write = some (out, content) →
      ∃ p : FsPath, content =
        concatAll ((split_audio (w.duration p) cfg.chunkLen).map
          (fun c => (if cfg.useGpt then w.postText cfg.prompt (w.backendText p c)
                     else w.backendText p c) ++ "\n"))) := by
  refine ⟨process_audio_join, ?_⟩
  intro listing r out content hmem hw
  obtain ⟨nm, _, rfl⟩ := process_all_files_mem w cfg listing r hmem
  obtain ⟨p, hct⟩ := processEntry_write_content w cfg nm out content hw
  exact ⟨p, hct.trans (process_audio_join _ _ _ _ _)⟩

/-- A sample run: no pre-existing mp3 siblings, pydub succeeds, every file
is 15 ms long, the transcription backend always answers `"hello"`, the
rewrite backend is the identity on the text. -/
def sampleWorld : World :=
  ⟨fun _ => false, fun _ => true, fun _ => 15, fun _ _ => "hello", fun _ t => t⟩

/-- A sample configuration: transcription enabled, no GPT rewrite, 10 ms
chunks. -/
def sampleCfg : Config :=
  ⟨"src".data, "out".data, true, false, 10, "p"⟩

/-- Witness for C2: a 15 ms `note.mp3` with 10 ms chunks is persisted as
`"hello\nhello\n"`, and that content is exactly the newline-joined
segment concatenation. -/
theorem transcript_round_trip_witness :
    process_all_files sampleWorld sampleCfg ["note.mp3".data] =
      [⟨true, false, some (⟨"out".data, "note.txt".data⟩, "hello\nhello\n")⟩] ∧
    (∃ p : FsPath, "hello\nhello\n" =
      concatAll ((split_audio (sampleWorld.duration p) sampleCfg.chunkLen).map
        (fun c => (if sampleCfg.useGpt then
                     sampleWorld.postText sampleCfg.prompt (sampleWorld.backendText p c)
                   else sampleWorld.backendText p c) ++ "\n"))) :=
  ⟨by decide,
   (transcript_round_trip sampleWorld sampleCfg).2 ["note.mp3".data]
     (processEntry sampleWorld sampleCfg ("note.mp3".data))
     ⟨"out".data, "note.txt".data⟩ ("hello\nhello\n")
     (by decide) (by decide)⟩

/-- Claim C3: when the backend call made by `transcribe` fails, the
invocation fails with that error propagating unchanged — the
`TranscriptionError` the caller observes carries the underlying cause —
and no internal retry happens: exactly one backend request is issued per
invocation (the call counter advances by exactly one). -/
theorem transcribe_failure_propagates_no_retry {ε : Type}
    (backend : Nat → Except ε WhisperResponse) (calls : Nat) (e : ε)
    (h : backend calls = Except.error e) :
    transcribe backend calls = (TranscribeOutcome.transcriptionError e, calls + 1) := by
  simp [transcribe, h]

/-- Witness for C3: a backend whose every request fails with cause `7`. -/
theorem transcribe_failure_propagates_no_retry_witness :
    (fun _ : Nat => (Except.error 7 : Except Nat WhisperResponse)) 0 =
      Except.error 7 ∧
    transcribe (fun _ : Nat => (Except.error 7 : Except Nat WhisperResponse)) 0 =
      (TranscribeOutcome.transcriptionError 7, 1) :=
  ⟨rfl, transcribe_failure_propagates_no_retry _ 0 7 rfl⟩

/-- Claim C4: `transcribe` normalizes both response shapes to plain text:
a bare string is returned as is, and a structured response's text is
extracted from `choices[0].text`; in both cases the caller receives a
`.text` outcome, never the structured variant. -/
theorem transcribe_normalizes_response {ε : Type}
    (backend : Nat → Except ε WhisperResponse) (calls : Nat) :
    (∀ s : String, backend calls = Except.ok (WhisperResponse.plain s) →
      transcribe backend calls = (TranscribeOutcome.text s, calls + 1)) ∧
    (∀ (c : Choice) (rest : List Choice),
      backend calls = Except.ok (WhisperResponse.structured (c :: rest)) →
      transcribe backend calls = (TranscribeOutcome.text c.text, calls + 1)) := by
  constructor
  · intro s h; simp [transcribe, h]
  · intro c rest h; simp [transcribe, h]

/-- Witness for C4: one plain-string response and one structured response,
both normalized to their text. -/
theorem transcribe_normalizes_response_witness :
    transcribe (fun _ : Nat =>
        (Except.ok (WhisperResponse.plain ("hi")) : Except Nat WhisperResponse)) 0 =
      (TranscribeOutcome.text ("hi"), 1) ∧
    transcribe (fun _ : Nat =>
        (Except.ok (WhisperResponse.structured [⟨"yo"⟩]) : Except Nat WhisperResponse)) 0 =
      (TranscribeOutcome.text ("yo"), 1) :=
  ⟨(transcribe_normalizes_response _ 0).1 ("hi") rfl,
   (transcribe_normalizes_response _ 0).2 ⟨"yo"⟩ [] rfl⟩

/-- Claim C9: the non-string branch of `transcribe` reads
`response.choices[0].text` without a guard, so a text result from a
structured response presupposes a non-empty `choices` list, and on a
structured response with an empty `choices` list the extraction raises
(`IndexError`) instead of returning text. -/
theorem choices_extraction_precondition {ε : Type}
    (backend : Nat → Except ε WhisperResponse) (calls : Nat) :
    (∀ (cs : List Choice) (s : String) (n : Nat),
      backend calls = Except.ok (WhisperResponse.structured cs) →
      transcribe backend calls = (TranscribeOutcome.text s, n) → cs ≠ []) ∧
    (backend calls = Except.ok (WhisperResponse.structured []) →
      transcribe backend calls = (TranscribeOutcome.extractionError, calls + 1)) := by
  constructor
  · intro cs s n hb ht heq
    subst heq
    simp [transcribe, hb] at ht
  · intro h; simp [transcribe, h]

/-- Witness for C9: a structured response with an empty `choices` list
makes `transcribe` fail with the extraction error. -/
theorem choices_extraction_precondition_witness :
    (fun _ : Nat =>
        (Except.ok (WhisperResponse.structured []) : Except Nat WhisperResponse)) 0 =
      Except.ok (WhisperResponse.structured []) ∧
    transcribe (fun _ : Nat =>
        (Except.ok (WhisperResponse.structured []) : Except Nat WhisperResponse)) 0 =
      (TranscribeOutcome.extractionError, 1) :=
  ⟨rfl, (choices_extraction_precondition _ 0).2 rfl⟩

theorem finishEntry_none (w : World) (cfg : Config) (name : List Char) (t : Bool) :
    finishEntry w cfg name t none = ⟨true, t, none⟩ := by
  cases he : cfg.enabled <;> simp [finishEntry, he]

/-- Claim C5: when container transcoding fails for one file,
`convert_m4a_to_mp3` returns the failure marker `none` instead of
raising, that file produces no transcript write, and `process_all_files`
continues: the results for the entries before and after the failing one
are exactly what they would be in runs that process those entries alone. -/
theorem transcode_failure_recoverable (w : World) (cfg : Config)
    (pre post : List (List Char)) (bad : List Char)
    (hmatch : isAudioName bad = true)
    (hext : lowerAll (splitextBase bad).2 = ".m4a".data)
    (hnosib : w.mp3Exists (mp3SiblingPath ⟨cfg.srcDir, bad⟩) = false)
    (hfail : w.convertOk ⟨cfg.srcDir, bad⟩ = false) :
    convert_m4a_to_mp3 w ⟨cfg.srcDir, bad⟩ = (none, true) ∧
    (processEntry w cfg bad).write = none ∧
    process_all_files w cfg (pre ++ bad :: post) =
      process_all_files w cfg pre ++
        processEntry w cfg bad :: process_all_files w cfg post := by
  have hconv : convert_m4a_to_mp3 w ⟨cfg.srcDir, bad⟩ = (none, true) := by
    simp [convert_m4a_to_mp3, hnosib, hfail]
  refine ⟨hconv, ?_, ?_⟩
  · simp [processEntry, hmatch, hext, hconv, finishEntry_none]
  · rw [process_all_files_append]
    rfl

/-- A run in which pydub fails on `b.m4a` (and only there): no mp3
siblings exist, every mp3 is 5 ms long, the backend answers `"T"`. -/
def failWorld : World :=
  ⟨fun _ => false, fun p => p.base != "b.m4a".data, fun _ => 5,
   fun _ _ => "T", fun _ t => t⟩

/-- Witness for C5: among `a.mp3`, `b.m4a`, `c.mp3` the middle file's
transcode fails; the other two still produce their transcript writes and
the run completes. -/
theorem transcode_failure_recoverable_witness :
    isAudioName ("b.m4a".data) = true ∧
    lowerAll (splitextBase ("b.m4a".data)).2 = ".m4a".data ∧
    failWorld.mp3Exists (mp3SiblingPath ⟨sampleCfg.srcDir, "b.m4a".data⟩) = false ∧
    failWorld.convertOk ⟨sampleCfg.srcDir, "b.m4a".data⟩ = false ∧
    (convert_m4a_to_mp3 failWorld ⟨sampleCfg.srcDir, "b.m4a".data⟩ = (none, true) ∧
     (processEntry failWorld sampleCfg ("b.m4a".data)).write = none ∧
     process_all_files failWorld sampleCfg
         (["a.mp3".data] ++ "b.m4a".data :: ["c.mp3".data]) =
       process_all_files failWorld sampleCfg ["a.mp3".data] ++
         processEntry failWorld sampleCfg ("b.m4a".data) ::
           process_all_files failWorld sampleCfg ["c.mp3".data]) ∧
    process_all_files failWorld sampleCfg
        (["a.mp3".data] ++ "b.m4a".data :: ["c.mp3".data]) =
      [⟨true, false, some (⟨"out".data, "a.txt".data⟩, "T\n")⟩,
       ⟨true, true, none⟩,
       ⟨true, false, some (⟨"out".data, "c.txt".data⟩, "T\n")⟩] :=
  ⟨by decide, by decide, by decide, by decide,
   transcode_failure_recoverable failWorld sampleCfg
     ["a.mp3".data] ["c.mp3".data] ("b.m4a".data)
     (by decide) (by decide) (by decide) (by decide),
   by decide⟩

theorem convert_ext (w w2 : World) (p : FsPath)
    (hex : w2.mp3Exists = w.mp3Exists) (hok : w2.convertOk = w.convertOk) :
    convert_m4a_to_mp3 w p = convert_m4a_to_mp3 w2 p := by
  simp [convert_m4a_to_mp3, hex, hok]

theorem processEntry_disabled_write (w : World) (cfg : Config)
    (hdis : cfg.enabled = false) (name : List Char) :
    (processEntry w cfg name).write = none := by
  by_cases h1 : isAudioName name = true
  · by_cases h2 : lowerAll (splitextBase name).2 = ".m4a".data
    · rcases hcv : convert_m4a_to_mp3 w ⟨cfg.srcDir, name⟩ with ⟨mp3, flag⟩
      cases mp3 <;>
        simp [processEntry, h1, h2, hcv, finishEntry, hdis]
    · by_cases h3 : lowerAll (splitextBase name).2 = ".mp3".data
      · simp [processEntry, h1, h2, h3, finishEntry, hdis]
      · simp [processEntry, h1, h2, h3]
  · simp [processEntry, h1]

theorem processEntry_ext_disabled (w w2 : World) (cfg : Config)
    (hdis : cfg.enabled = false)
    (hex : w2.mp3Exists = w.mp3Exists) (hok : w2.convertOk = w.convertOk)
    (name : List Char) :
    processEntry w cfg name = processEntry w2 cfg name := by
  have hc : ∀ p, convert_m4a_to_mp3 w p = convert_m4a_to_mp3 w2 p :=
    fun p => convert_ext w w2 p hex hok
  by_cases h1 : isAudioName name = true
  · by_cases h2 : lowerAll (splitextBase name).2 = ".m4a".data
    · simp only [processEntry, h1, h2, if_true, if_pos, hc]
      rw [finishEntry_disabled w cfg hdis, finishEntry_disabled w2 cfg hdis]
    · by_cases h3 : lowerAll (splitextBase name).2 = ".mp3".data
      · simp only [processEntry, h1, h2, h3, if_true, if_pos, if_neg, not_false_iff]
        rw [if_neg (by decide), if_neg (by decide),
          finishEntry_disabled w cfg hdis, finishEntry_disabled w2 cfg hdis]
      · simp [processEntry, h1, h2, h3]
  · simp [processEntry, h1]

theorem processEntry_m4a_transcodes (w : World) (cfg : Config) (name : List Char)
    (h1 : isAudioName name = true)
    (h2 : lowerAll (splitextBase name).2 = ".m4a".data)
    (h3 : w.mp3Exists (mp3SiblingPath ⟨cfg.srcDir, name⟩) = false) :
    (processEntry w cfg name).transcodeInvoked = true := by
  have hconv2 : (convert_m4a_to_mp3 w ⟨cfg.srcDir, name⟩).2 = true := by
    cases hw : w.convertOk ⟨cfg.srcDir, name⟩ <;>
      simp [convert_m4a_to_mp3, h3, hw]
  simp [processEntry, h1, h2, finishEntry_transcoded, hconv2]

/-- Claim C6: with transcription globally disabled, no run writes any
transcript (the `write` of every entry result is `none`), the run is
insensitive to the transcription and rewrite backends (no backend call
can influence it — the frame of the run excludes both), yet m4a-to-mp3
container transcoding is still performed for `.m4a` inputs whose mp3
sibling does not already exist. -/
theorem disabled_run_frame (w w2 : World) (cfg : Config)
    (hdis : cfg.enabled = false)
    (hex : w2.mp3Exists = w.mp3Exists) (hok : w2.convertOk = w.convertOk) :
    (∀ listing : List (List Char), ∀ r ∈ process_all_files w cfg listing,
      r.write = none) ∧
    (∀ name : List Char, processEntry w cfg name = processEntry w2 cfg name) ∧
    (∀ name : List Char, isAudioName name = true →
      lowerAll (splitextBase name).2 = ".m4a".data →
      w.mp3Exists (mp3SiblingPath ⟨cfg.srcDir, name⟩) = false →
      (processEntry w cfg name).transcodeInvoked = true) := by
  refine ⟨?_, fun name => processEntry_ext_disabled w w2 cfg hdis hex hok name,
    fun name h1 h2 h3 => processEntry_m4a_transcodes w cfg name h1 h2 h3⟩
  intro listing r hr
  obtain ⟨nm, _, rfl⟩ := process_all_files_mem w cfg listing r hr
  exact processEntry_disabled_write w cfg hdis nm

/-- A disabled-transcription configuration, otherwise like `sampleCfg`. -/
def disabledCfg : Config :=
  ⟨"src".data, "out".data, false, false, 10, "p"⟩

/-- A world agreeing with `sampleWorld` on the filesystem (no mp3
siblings, pydub succeeds) but with different durations and backends. -/
def altWorld : World :=
  ⟨fun _ => false, fun _ => true, fun _ => 999, fun _ _ => "ZZZ", fun _ _ => "Q"⟩

/-- Witness for C6: with transcription disabled, a two-file run writes
nothing, its results do not change when both backends (and the
durations) change, and the `.m4a` entry still gets transcoded. -/
theorem disabled_run_frame_witness :
    disabledCfg.enabled = false ∧
    altWorld.mp3Exists = sampleWorld.mp3Exists ∧
    altWorld.convertOk = sampleWorld.convertOk ∧
    (∀ r ∈ process_all_files sampleWorld disabledCfg
        ["a.mp3".data, "b.m4a".data], r.write = none) ∧
    processEntry sampleWorld disabledCfg ("b.m4a".data) =
      processEntry altWorld disabledCfg ("b.m4a".data) ∧
    (processEntry sampleWorld disabledCfg ("b.m4a".data)).transcodeInvoked = true :=
  ⟨rfl, rfl, rfl,
   (disabled_run_frame sampleWorld altWorld disabledCfg rfl rfl rfl).1
     ["a.mp3".data, "b.m4a".data],
   (disabled_run_frame sampleWorld altWorld disabledCfg rfl rfl rfl).2.1
     ("b.m4a".data),
   (disabled_run_frame sampleWorld altWorld disabledCfg rfl rfl rfl).2.2
     ("b.m4a".data) (by decide) (by decide) rfl⟩

/-- Claim C7: when the same-stem `.mp3` sibling of an `.m4a` input already
exists, `convert_m4a_to_mp3` returns that existing path without invoking
the transcoder (no audio load or export), so re-running the pipeline on
an already-converted file performs no transcode. -/
theorem convert_idempotent_skip (w : World) (p : FsPath)
    (h : w.mp3Exists (mp3SiblingPath p) = true) :
    convert_m4a_to_mp3 w p = (some (mp3SiblingPath p), false) ∧
    (∀ (cfg : Config) (name : List Char), p = ⟨cfg.srcDir, name⟩ →
      isAudioName name = true →
      lowerAll (splitextBase name).2 = ".m4a".data →
      (processEntry w cfg name).transcodeInvoked = false) := by
  have hc : convert_m4a_to_mp3 w p = (some (mp3SiblingPath p), false) := by
    simp [convert_m4a_to_mp3, h]
  refine ⟨hc, ?_⟩
  rintro cfg name rfl h1 h2
  simp [processEntry, h1, h2, hc, finishEntry_transcoded]

/-- A world in which every queried mp3 sibling already exists (and pydub
would fail if it were ever invoked). -/
def siblingWorld : World :=
  ⟨fun _ => true, fun _ => false, fun _ => 5, fun _ _ => "T", fun _ t => t⟩

/-- Witness for C7: converting `b.m4a` with its `b.mp3` sibling present
returns the sibling path with the transcoder not invoked, even though
pydub would fail; the pipeline entry reports no transcode. -/
theorem convert_idempotent_skip_witness :
    siblingWorld.mp3Exists (mp3SiblingPath ⟨"src".data, "b.m4a".data⟩) = true ∧
    convert_m4a_to_mp3 siblingWorld ⟨"src".data, "b.m4a".data⟩ =
      (some (mp3SiblingPath ⟨"src".data, "b.m4a".data⟩), false) ∧
    mp3SiblingPath ⟨"src".data, "b.m4a".data⟩ = ⟨"src".data, "b.mp3".data⟩ ∧
    (processEntry siblingWorld sampleCfg ("b.m4a".data)).transcodeInvoked = false :=
  ⟨rfl,
   (convert_idempotent_skip siblingWorld ⟨"src".data, "b.m4a".data⟩ rfl).1,
   by decide,
   (convert_idempotent_skip siblingWorld ⟨"src".data, "b.m4a".data⟩ rfl).2
     sampleCfg ("b.m4a".data) rfl (by decide) (by decide)⟩

theorem processEntry_matched (w : World) (cfg : Config) (name : List Char) :
    (processEntry w cfg name).matched = isAudioName name := by
  by_cases h1 : isAudioName name = true
  · rw [h1]
    by_cases h2 : lowerAll (splitextBase name).2 = ".m4a".data
    · rcases hcv : convert_m4a_to_mp3 w ⟨cfg.srcDir, name⟩ with ⟨mp3, flag⟩
      simp [processEntry, h1, h2, hcv, finishEntry_matched]
    · by_cases h3 : lowerAll (splitextBase name).2 = ".mp3".data
      · simp [processEntry, h1, h2, h3, finishEntry_matched]
      · simp [processEntry, h1, h2, h3]
  · have h0 : isAudioName name = false := by
      revert h1; cases isAudioName name <;> simp
    rw [h0]
    simp [processEntry, h0]

/-- Claim C8: an entry is processed exactly when its name ends with
`".m4a"` or `".mp3"` (the recognized audio container extensions); every
other entry is skipped without an error and without producing any output
or transcode. -/
theorem audio_extension_filter (w : World) (cfg : Config) (name : List Char) :
    ((processEntry w cfg name).matched = true ↔
      (".m4a".data.isSuffixOf name || ".mp3".data.isSuffixOf name) = true) ∧
    (isAudioName name = false → processEntry w cfg name = ⟨false, false, none⟩) := by
  constructor
  · rw [processEntry_matched]
    simp [isAudioName]
  · intro h
    simp [processEntry, h]

/-- Witness for C8: `notes.txt` fails the filter and is skipped with no
output, no transcode, and no error. -/
theorem audio_extension_filter_witness :
    (((processEntry sampleWorld sampleCfg ("notes.txt".data)).matched = true ↔
        (".m4a".data.isSuffixOf ("notes.txt".data) ||
         ".mp3".data.isSuffixOf ("notes.txt".data)) = true) ∧
     (isAudioName ("notes.txt".data) = false →
       processEntry sampleWorld sampleCfg ("notes.txt".data) = ⟨false, false, none⟩)) ∧
    isAudioName ("notes.txt".data) = false ∧
    processEntry sampleWorld sampleCfg ("notes.txt".data) = ⟨false, false, none⟩ :=
  ⟨audio_extension_filter sampleWorld sampleCfg ("notes.txt".data),
   by decide,
   (audio_extension_filter sampleWorld sampleCfg ("notes.txt".data)).2 (by decide)⟩

theorem processEntry_mp3_write (w : World) (cfg : Config) (name : List Char)
    (hen : cfg.enabled = true) (h1 : isAudioName name = true)
    (h3 : lowerAll (splitextBase name).2 = ".mp3".data) :
    (processEntry w cfg name).write =
      some (⟨cfg.outDir, (splitextBase name).1 ++ ".txt".data⟩,
        process_audio (w.backendText ⟨cfg.srcDir, name⟩) (w.postText cfg.prompt)
          (w.duration ⟨cfg.srcDir, name⟩) cfg.chunkLen cfg.useGpt) := by
  have hne : ¬(lowerAll (splitextBase name).2 = ".m4a".data) := by
    rw [h3]; decide
  simp [processEntry, h1, h3, hne, finishEntry, hen]

theorem processEntry_m4a_write (w : World) (cfg : Config) (name : List Char)
    (p : FsPath) (hen : cfg.enabled = true) (h1 : isAudioName name = true)
    (h2 : lowerAll (splitextBase name).2 = ".m4a".data)
    (hc : (convert_m4a_to_mp3 w ⟨cfg.srcDir, name⟩).1 = some p) :
    (processEntry w cfg name).write =
      some (⟨cfg.outDir, (splitextBase name).1 ++ ".txt".data⟩,
        process_audio (w.backendText p) (w.postText cfg.prompt)
          (w.duration p) cfg.chunkLen cfg.useGpt) := by
  simp [processEntry, h1, h2, hc, finishEntry, hen]

/-- Claim C10: with transcription enabled, an eligible input with a usable
mp3 path always gets its transcript file written — including when the
transcript is empty.  A zero-duration input yields zero chunks, a
transcript that no backend call can influence (`process_audio` on
duration 0 is `""` for every backend), and a written output whose content
is the empty string. -/
theorem transcript_written_even_empty (w : World) (cfg : Config) (name : List Char)
    (hen : cfg.enabled = true)
    (hmatch : isAudioName name = true)
    (hmp3 : lowerAll (splitextBase name).2 = ".mp3".data) :
    (processEntry w cfg name).write =
      some (⟨cfg.outDir, (splitextBase name).1 ++ ".txt".data⟩,
        process_audio (w.backendText ⟨cfg.srcDir, name⟩) (w.postText cfg.prompt)
          (w.duration ⟨cfg.srcDir, name⟩) cfg.chunkLen cfg.useGpt) ∧
    (∀ L2 : Nat, 0 < L2 → split_audio 0 L2 = []) ∧
    (∀ (tf : Nat × Nat → String) (pf : String → String) (L2 : Nat) (b : Bool),
      0 < L2 → process_audio tf pf 0 L2 b = "") ∧
    (w.duration ⟨cfg.srcDir, name⟩ = 0 → 0 < cfg.chunkLen →
      (processEntry w cfg name).write =
        some (⟨cfg.outDir, (splitextBase name).1 ++ ".txt".data⟩, "")) ∧
    (∀ (name2 : List Char) (p : FsPath), isAudioName name2 = true →
      lowerAll (splitextBase name2).2 = ".m4a".data →
      (convert_m4a_to_mp3 w ⟨cfg.srcDir, name2⟩).1 = some p →
      (processEntry w cfg name2).write =
        some (⟨cfg.outDir, (splitextBase name2).1 ++ ".txt".data⟩,
          process_audio (w.backendText p) (w.postText cfg.prompt)
            (w.duration p) cfg.chunkLen cfg.useGpt)) := by
  have hzero : ∀ (tf : Nat × Nat → String) (pf : String → String) (L2 : Nat)
      (b : Bool), 0 < L2 → process_audio tf pf 0 L2 b = "" := by
    intro tf pf L2 b hL2
    simp [process_audio, split_audio_zero L2 hL2]
  refine ⟨processEntry_mp3_write w cfg name hen hmatch hmp3,
    fun L2 hL2 => split_audio_zero L2 hL2, hzero, ?_,
    fun name2 p h1 h2 hc => processEntry_m4a_write w cfg name2 p hen h1 h2 hc⟩
  intro hdur hLpos
  rw [processEntry_mp3_write w cfg name hen hmatch hmp3, hdur,
    hzero _ _ _ _ hLpos]

/-- A world whose every file has duration 0 ms. -/
def zeroWorld : World :=
  ⟨fun _ => false, fun _ => true, fun _ => 0, fun _ _ => "T", fun _ t => t⟩

/-- Witness for C10: a zero-duration `z.mp3` still gets `z.txt` written,
with empty content. -/
theorem transcript_written_even_empty_witness :
    sampleCfg.enabled = true ∧
    isAudioName ("z.mp3".data) = true ∧
    lowerAll (splitextBase ("z.mp3".data)).2 = ".mp3".data ∧
    zeroWorld.duration ⟨sampleCfg.srcDir, "z.mp3".data⟩ = 0 ∧
    0 < sampleCfg.chunkLen ∧
    split_audio 0 sampleCfg.chunkLen = [] ∧
    (processEntry zeroWorld sampleCfg ("z.mp3".data)).write =
      some (⟨"out".data, "z.txt".data⟩, "") :=
  ⟨rfl, by decide, by decide, rfl, by decide, by decide, by
    have h := (transcript_written_even_empty zeroWorld sampleCfg ("z.mp3".data)
      rfl (by decide) (by decide)).2.2.2.1 rfl (by decide)
    exact h.trans (by decide)⟩
